import Mathlib

/-!
Verification of the MACE runtime model-execution pipeline specification
against the repository sources (`mace/ops/depth_to_space_test.cc` and
`mace/tools/mace_run.cc`).

Components whose implementation is not under the repository sources
(the Depth-To-Space kernel, the layout transposes, the engine) are
modelled from the specification text; their doc comments say so.
The run-harness control flow, `ParseDataType` and `ParseShape` are
embedded directly from `mace/tools/mace_run.cc`.
-/

namespace Mace

/-- A dense tensor: a shape (list of extents) together with the flat
memory contents, represented as a total function from flat indices to
elements (indices past the logical size return junk, as in a C buffer). -/
structure Tensor (α : Type) where
  shape : List Nat
  data : Nat → α

/-- Flat row-major (NHWC style) index of coordinates `(n, h, w, c)` for
a rank-4 tensor with trailing extents `H W C`. -/
def idx4 (H W C n h w c : Nat) : Nat :=
  ((n * H + h) * W + w) * C + c

/-- Modelled from the spec: the Depth-To-Space shape-transforming
operator (its kernel implementation is not under the sources; only its
tests are).  On an NHWC input of shape `[N, H, W, C·b²]` with attribute
`block_size = b ≥ 1` and channel count divisible by `b²`, it produces
an NHWC output of shape `[N, H·b, W·b, C]` with
`out[n, y, x, c] = in[n, y/b, x/b, c + (b·(y mod b) + (x mod b))·C]`. -/
def depthToSpace {α : Type} (b : Nat) (t : Tensor α) : Option (Tensor α) :=
  match t.shape with
  | [n0, h0, w0, c0] =>
    if 1 ≤ b ∧ c0 % (b * b) = 0 then
      some { shape := [n0, h0 * b, w0 * b, c0 / (b * b)],
             data := fun i =>
               t.data (idx4 h0 w0 c0
                 (i / (c0 / (b * b)) / (w0 * b) / (h0 * b))
                 (i / (c0 / (b * b)) / (w0 * b) % (h0 * b) / b)
                 (i / (c0 / (b * b)) % (w0 * b) / b)
                 (i % (c0 / (b * b)) +
                   (b * (i / (c0 / (b * b)) / (w0 * b) % (h0 * b) % b) +
                     i / (c0 / (b * b)) % (w0 * b) % b) * (c0 / (b * b)))) }
    else none
  | _ => none

/-- Modelled from the spec: the dense `NHWC → NCHW` layout transpose
performed by `TransformDataFormat` (its implementation is not under the
sources; only its call sites in the test are).  Consumes a flat NHWC
buffer and produces the flat NCHW buffer. -/
def nhwcToNchw {α : Type} (N H W C : Nat) (f : Nat → α) : Nat → α :=
  fun j =>
    f (((j / W / H / C * H + j / W % H) * W + j % W) * C + j / W / H % C)

/-- Modelled from the spec: the dense `NCHW → NHWC` layout transpose
performed by `TransformDataFormat`.  Consumes a flat NCHW buffer and
produces the flat NHWC buffer. -/
def nchwToNhwc {α : Type} (N H W C : Nat) (g : Nat → α) : Nat → α :=
  fun i =>
    g (((i / C / W / H * C + i % C) * H + i / C / W % H) * W + i / C % W)

/-- Modelled from the spec: the Engine of §4.6, owning the graph (here
the representative single Depth-To-Space node with its `block_size`
attribute), the read-only weight arena, the persistent tuning cache and
per-run scratch bookkeeping. -/
structure Engine (α : Type) where
  blockSize : Nat
  weights : List α
  tuningCache : List (List Nat × Nat)
  runCount : Nat

/-- Modelled from the spec: `Engine.Run` of §4.6.  Binds the input,
invokes the scheduler on the graph (the representative Depth-To-Space
node), returns the outputs, and populates run-metadata only when it is
requested.  Per §5, only per-run scratch state is mutated; the weight
arena and the graph are read-only. -/
def Engine.run {α : Type} (e : Engine α) (inp : Tensor α)
    (wantMeta : Bool) : Engine α × Option (Tensor α) × Option Nat :=
  ({ e with runCount := e.runCount + 1 },
   depthToSpace e.blockSize inp,
   if wantMeta then some (e.runCount + 1) else none)

/-- The warmup call of the run-harness (`mace_run.cc` line 480): the
plain `engine->Run(inputs, &outputs)` with no metadata argument, timed
separately as the warmup latency. -/
def warmupRun {α : Type} (e : Engine α) (inp : Tensor α) :
    Engine α × Option (Tensor α) × Option Nat :=
  Engine.run e inp false

/-- A measured-round call of the run-harness (`mace_run.cc` line 540):
`engine->Run(inputs, &outputs, metadata_ptr)` where the metadata
pointer is supplied exactly when `FLAGS_benchmark` is set. -/
def roundRun {α : Type} (e : Engine α) (inp : Tensor α)
    (benchmark : Bool) : Engine α × Option (Tensor α) × Option Nat :=
  Engine.run e inp benchmark

/-- The status codes of `MaceStatus` (`MACE_SUCCESS`,
`MACE_INVALID_ARGS`, `MACE_OUT_OF_RESOURCES`, `MACE_UNSUPPORTED`,
`MACE_RUNTIME_ERROR`); the last one is the BackendError of the spec. -/
inductive MaceStatus where
  | success
  | invalidArgs
  | outOfResources
  | unsupported
  | runtimeError
deriving DecidableEq, Repr

/-- The engine-creation loop of `RunModel` (`mace_run.cc` lines
348-394): call Create; on any non-success status log and loop; on
success break.  The argument is the oracle of successive Create
outcomes; the result is the number of Create invocations made and the
remaining oracle, or `none` when the oracle is exhausted (the code
would keep looping). -/
def createLoop : List MaceStatus → Option (Nat × List MaceStatus)
  | [] => none
  | s :: rest =>
    if s = MaceStatus.success then some (1, rest)
    else (createLoop rest).map (fun p => (p.1 + 1, p.2))

/-- A run-until-success loop of `RunModel` (the warmup loop at lines
478-515 and the per-round loop at lines 538-579): call Run; on any
non-success status, re-create the engine until Create succeeds, then
retry Run; on success break.  Arguments are the oracles of Create and
Run outcomes; the result is `(creates, runs, remaining oracles)`. -/
def runRetry : List MaceStatus → List MaceStatus →
    Option (Nat × Nat × List MaceStatus × List MaceStatus)
  | _, [] => none
  | cs, r :: rs =>
    if r = MaceStatus.success then some (0, 1, cs, rs)
    else
      match createLoop cs with
      | none => none
      | some (nc, cs2) =>
        match runRetry cs2 rs with
        | none => none
        | some (nc2, nr, cs3, rs3) => some (nc + nc2, nr + 1, cs3, rs3)

/-- The measured rounds of `RunModel` (`mace_run.cc` lines 519-583):
`FLAGS_round` iterations, each a run-until-success loop. -/
def roundsLoop : Nat → List MaceStatus → List MaceStatus →
    Option (Nat × Nat × List MaceStatus × List MaceStatus)
  | 0, cs, rs => some (0, 0, cs, rs)
  | n + 1, cs, rs =>
    match runRetry cs rs with
    | none => none
    | some (nc, nr, cs2, rs2) =>
      match roundsLoop n cs2 rs2 with
      | none => none
      | some (nc2, nr2, cs3, rs3) => some (nc + nc2, nr + nr2, cs3, rs3)

/-- The retry skeleton of `RunModel` (`mace_run.cc` lines 348-583):
initial create loop, warmup run-until-success, then the measured
rounds.  Returns the total numbers of Create and Run invocations. -/
def runModelHarness (cs rs : List MaceStatus) (rounds : Nat) :
    Option (Nat × Nat) :=
  match createLoop cs with
  | none => none
  | some (nc, cs1) =>
    match runRetry cs1 rs with
    | none => none
    | some (nc2, nr2, cs2, rs2) =>
      match roundsLoop rounds cs2 rs2 with
      | none => none
      | some (nc3, nr3, _, _) => some (nc + nc2 + nc3, nr2 + nr3)

/-- The `IDataType` enumerators used by `mace_run.cc`. -/
inductive IDataType where
  | IDT_FLOAT
  | IDT_FLOAT16
  | IDT_BFLOAT16
  | IDT_INT32
deriving DecidableEq, Repr

/-- `ParseDataType` from `mace_run.cc` lines 75-85, embedded branch by
branch. -/
def ParseDataType (s : String) : IDataType :=
  if s = "float32" then IDataType.IDT_FLOAT
  else if s = "float16" then IDataType.IDT_FLOAT16
  else if s = "bfloat16" then IDataType.IDT_BFLOAT16
  else IDataType.IDT_FLOAT

/-- The `isspace` character class used by `atoi`. -/
def cIsSpace (ch : Char) : Bool :=
  ch = ' ' || ch = '\t' || ch = '\n' || ch = '\r' || ch = '\x0b' || ch = '\x0c'

/-- The decimal-digit character class used by `atoi`. -/
def cIsDigit (ch : Char) : Bool :=
  '0' ≤ ch && ch ≤ '9'

/-- Value of the leading run of decimal digits, as accumulated by
`atoi`; an empty run gives 0. -/
def digitsVal (l : List Char) : Int :=
  (l.takeWhile cIsDigit).foldl (fun a ch => a * 10 + ((ch.toNat : Int) - 48)) 0

/-- The C `atoi` on the characters of a string: skip leading
whitespace, an optional single sign, then the leading run of digits;
no digits gives 0. -/
def atoi (l : List Char) : Int :=
  match l.dropWhile cIsSpace with
  | [] => 0
  | ch :: rest =>
    if ch = '-' then - digitsVal rest
    else if ch = '+' then digitsVal rest
    else digitsVal (ch :: rest)

/-- Index of the first comma, as computed by `std::string::find(",")`;
`none` models `npos`. -/
def idxOfComma : List Char → Option Nat
  | [] => none
  | ch :: cs =>
    if ch = ',' then some 0 else (idxOfComma cs).map (fun k => k + 1)

/-- `ParseShape` from `mace_run.cc` lines 53-65, on the characters of
the argument string: while the remainder is non-empty, append
`atoi(remainder)`, then continue past the first comma, or stop if
there is none.  The returned list is what the loop appends to the
shape vector. -/
def ParseShape : List Char → List Int
  | [] => []
  | ch :: cs =>
    atoi (ch :: cs) ::
      match idxOfComma (ch :: cs) with
      | none => []
      | some k => ParseShape ((ch :: cs).drop (k + 1))
termination_by l => l.length
decreasing_by
  simp [List.length_drop]
  omega

/-- Split a character list on commas (every comma separates two
segments; used to state the comma-separated-segments reading of the
`ParseShape` claim). -/
def splitOnComma : List Char → List (List Char)
  | [] => [[]]
  | ch :: cs =>
    if ch = ',' then [] :: splitOnComma cs
    else
      match splitOnComma cs with
      | [] => [[ch]]
      | s :: ss => (ch :: s) :: ss

/-- Remove a final empty segment (produced by an empty string or a
trailing comma), matching the claim that the empty string appends
nothing and a trailing comma adds no extra element. -/
def dropTrailingEmpty (parts : List (List Char)) : List (List Char) :=
  if parts.getLast? = some [] then parts.dropLast else parts

/-- The comma-separated segments of the claim wording: split on
commas, then drop a final empty segment. -/
def claimSegments (l : List Char) : List (List Char) :=
  dropTrailingEmpty (splitOnComma l)

/-- The S1 test input of `depth_to_space_test.cc` lines 70-78: shape
`[1, 1, 2, 16]` holding values `0..31`. -/
def dtsIn1 : Tensor Int :=
  { shape := [1, 1, 2, 16], data := fun i => (i : Int) }

/-- The S2 test input of `depth_to_space_test.cc` lines 90-95: shape
`[1, 1, 1, 16]` holding values `1..16`. -/
def dtsIn2 : Tensor Int :=
  { shape := [1, 1, 1, 16], data := fun i => (i : Int) + 1 }

/-- Decoding a packed index: the remainder extracts the low coordinate. -/
theorem dec_mod (k a B : Nat) (ha : a < B) : (k * B + a) % B = a := by
  rw [Nat.mul_comm, Nat.mul_add_mod, Nat.mod_eq_of_lt ha]

/-- Decoding a packed index: the quotient extracts the high coordinates. -/
theorem dec_div (k a B : Nat) (ha : a < B) : (k * B + a) / B = k := by
  have hB : 0 < B := Nat.lt_of_le_of_lt (Nat.zero_le a) ha
  rw [Nat.mul_comm, Nat.mul_add_div hB, Nat.div_eq_of_lt ha, Nat.add_zero]

/-- A flat index below the element count decodes to an in-range
leading coordinate. -/
theorem div_bound (m X B : Nat) (h : m < X * B) : m / B < X :=
  Nat.div_lt_of_lt_mul (by rw [Nat.mul_comm] at h; exact h)

/-- Claim C1: for every input tensor of shape `[N, H, W, C·b²]` in
channel-last form with integer attribute `block_size = b ≥ 1` and
channel dimension divisible by `b²`, Depth-To-Space produces an output
of shape `[N, H·b, W·b, C]` whose every element satisfies
`out[n, y, x, c] = in[n, y/b, x/b, c + (b·(y mod b) + (x mod b))·C]`
for all valid `(n, y, x, c)`. -/
theorem depthToSpace_C1 {α : Type} (b N H W C : Nat) (t : Tensor α)
    (hb : 1 ≤ b) (hsh : t.shape = [N, H, W, C * (b * b)])
    (n y x c : Nat) (hn : n < N) (hy : y < H * b) (hx : x < W * b) (hc : c < C) :
    (depthToSpace b t).map Tensor.shape = some [N, H * b, W * b, C] ∧
    (depthToSpace b t).map (fun o => o.data (idx4 (H * b) (W * b) C n y x c)) =
      some (t.data (idx4 H W (C * (b * b)) n (y / b) (x / b)
        (c + (b * (y % b) + x % b) * C))) := by
  have hbb : 0 < b * b := Nat.mul_pos hb hb
  have hco : C * (b * b) / (b * b) = C := Nat.mul_div_cancel C hbb
  have hmod : C * (b * b) % (b * b) = 0 := Nat.mul_mod_left C (b * b)
  simp only [depthToSpace, hsh]
  rw [if_pos ⟨hb, hmod⟩]
  constructor
  · simp [hco]
  · simp only [Option.map_some', Option.some.injEq, hco]
    congr 1
    simp only [idx4]
    rw [dec_mod _ _ _ hc, dec_div _ _ _ hc]
    rw [dec_mod _ _ _ hx, dec_div _ _ _ hx]
    rw [dec_mod _ _ _ hy, dec_div _ _ _ hy]

/-- Witness for claim C1: the Depth-To-Space formula instantiated at
`b = 2` on the `[1, 1, 2, 16]` test input, at output coordinate
`(0, 1, 2, 3)`. -/
theorem depthToSpace_C1_witness :
    dtsIn1.shape = [1, 1, 2, 4 * (2 * 2)] ∧
    ((depthToSpace 2 dtsIn1).map Tensor.shape = some [1, 1 * 2, 2 * 2, 4] ∧
     (depthToSpace 2 dtsIn1).map
        (fun o => o.data (idx4 (1 * 2) (2 * 2) 4 0 1 2 3)) =
       some (dtsIn1.data (idx4 1 2 (4 * (2 * 2)) 0 (1 / 2) (2 / 2)
         (3 + (2 * (1 % 2) + 2 % 2) * 4)))) :=
  ⟨rfl, depthToSpace_C1 2 1 1 2 4 dtsIn1 (by decide) rfl 0 1 2 3
    (by decide) (by decide) (by decide) (by decide)⟩

/-- Claim C2: with `block_size = 2`, the `[1, 1, 2, 16]` input holding
`0..31` yields output shape `[1, 2, 4, 4]` with the exact memory-order
value sequence of the test, and the `[1, 1, 1, 16]` input holding
`1..16` yields output shape `[1, 2, 2, 4]` with values `1..16`
unchanged in memory order. -/
theorem dts_test_vectors_C2 :
    ((depthToSpace 2 dtsIn1).map Tensor.shape = some [1, 2, 4, 4]) ∧
    ((depthToSpace 2 dtsIn1).map (fun o => (List.range 32).map o.data) =
      some [0, 1, 2, 3, 4, 5, 6, 7, 16, 17, 18, 19, 20, 21, 22, 23,
            8, 9, 10, 11, 12, 13, 14, 15, 24, 25, 26, 27, 28, 29, 30, 31]) ∧
    ((depthToSpace 2 dtsIn2).map Tensor.shape = some [1, 2, 2, 4]) ∧
    ((depthToSpace 2 dtsIn2).map (fun o => (List.range 16).map o.data) =
      some [1, 2, 3, 4, 5, 6, 7, 8, 9, 10, 11, 12, 13, 14, 15, 16]) := by
  decide

/-- Counterexample to claim C3 as stated: after a `MACE_INVALID_ARGS`
failure (not a BackendError) from Create, the harness invokes Create a
second time instead of reporting the error; after a failed Run it
re-invokes Create and retries the Run; the full harness on these
oracles makes 3 Create and 3 Run invocations and reports no error. -/
theorem harness_retry_cex_C3 :
    createLoop [MaceStatus.invalidArgs, MaceStatus.success] = some (2, []) ∧
    runRetry [MaceStatus.success] [MaceStatus.outOfResources, MaceStatus.success] =
      some (1, 2, [], []) ∧
    runModelHarness [MaceStatus.invalidArgs, MaceStatus.success, MaceStatus.success]
      [MaceStatus.outOfResources, MaceStatus.success, MaceStatus.success] 1 =
      some (3, 3) := by
  decide

/-- Claim C3 (amended): the run-harness retries Create on every error
kind returned from Create, not only BackendError; and every error
returned from Run makes the harness re-create the engine (retrying
Create until it succeeds) and then retry the Run, rather than
reporting the error to the caller. -/
theorem harness_retry_amended_C3 (e : MaceStatus) (he : e ≠ MaceStatus.success)
    (cs cs2 cs3 rs rs3 : List MaceStatus) (nc nc2 nr : Nat)
    (h1 : createLoop cs = some (nc, cs2))
    (h2 : runRetry cs2 rs = some (nc2, nr, cs3, rs3)) :
    createLoop (e :: cs) = some (nc + 1, cs2) ∧
    runRetry cs (e :: rs) = some (nc + nc2, nr + 1, cs3, rs3) := by
  constructor
  · simp [createLoop, he, h1]
  · simp [runRetry, he, h1, h2]

/-- Witness for the amended claim C3, at a concrete non-BackendError
failure followed by recovery. -/
theorem harness_retry_amended_C3_witness :
    createLoop [MaceStatus.invalidArgs, MaceStatus.success] = some (1 + 1, []) ∧
    runRetry [MaceStatus.success] [MaceStatus.invalidArgs, MaceStatus.success] =
      some (1 + 0, 1 + 1, [], []) :=
  harness_retry_amended_C3 MaceStatus.invalidArgs (by decide)
    [MaceStatus.success] [] [] [MaceStatus.success] [] 1 0 1 (by decide) (by decide)

/-- Claim C4: converting a tensor `NHWC → NCHW → NHWC` yields a
bitwise-identical tensor (an exact element-wise round trip, for any
element type, hence for the integer and f32 scalar types). -/
theorem layout_roundtrip_C4 {α : Type} (N H W C : Nat) (f : Nat → α)
    (i : Nat) (hi : i < N * H * W * C) :
    nchwToNhwc N H W C (nhwcToNchw N H W C f) i = f i := by
  have hprod : 0 < N * H * W * C := Nat.lt_of_le_of_lt (Nat.zero_le i) hi
  have hC : 0 < C := by
    rcases Nat.eq_zero_or_pos C with h | h
    · simp [h] at hprod
    · exact h
  have hW : 0 < W := by
    rcases Nat.eq_zero_or_pos W with h | h
    · simp [h] at hprod
    · exact h
  have hH : 0 < H := by
    rcases Nat.eq_zero_or_pos H with h | h
    · simp [h] at hprod
    · exact h
  have hc : i % C < C := Nat.mod_lt _ hC
  have hw : i / C % W < W := Nat.mod_lt _ hW
  have hh : i / C / W % H < H := Nat.mod_lt _ hH
  simp only [nchwToNhwc, nhwcToNchw]
  congr 1
  rw [dec_mod _ _ _ hw, dec_div _ _ _ hw]
  rw [dec_mod _ _ _ hh, dec_div _ _ _ hh]
  rw [dec_mod _ _ _ hc, dec_div _ _ _ hc]
  rw [Nat.div_add_mod' (i / C / W) H, Nat.div_add_mod' (i / C) W,
    Nat.div_add_mod' i C]

/-- Witness for claim C4: the round trip evaluated on a concrete
`[1, 2, 2, 3]` integer tensor at flat index 7. -/
theorem layout_roundtrip_C4_witness :
    (7 : Nat) < 1 * 2 * 2 * 3 ∧
    nchwToNhwc 1 2 2 3 (nhwcToNchw 1 2 2 3 (fun i => (i : Int))) 7 = (7 : Int) :=
  ⟨by decide, layout_roundtrip_C4 1 2 2 3 (fun i => (i : Int)) 7 (by decide)⟩

/-- Claim C5: on the CPU backend, two successive `Run` calls on the
same Engine with identical inputs (and hence identical configuration
and caches, which `Run` does not alter) produce identical outputs:
`Run` is a deterministic function of its inputs, configuration and
caches. -/
theorem run_deterministic_C5 {α : Type} (e : Engine α) (inp : Tensor α)
    (m1 m2 : Bool) :
    (((e.run inp m1).1).run inp m2).2.1 = (e.run inp m1).2.1 := rfl

/-- Claim C6: `Run` does not mutate the weight arena; the arena after
a `Run` call is identical to the arena before it. -/
theorem run_preserves_weights_C6 {α : Type} (e : Engine α) (inp : Tensor α)
    (m : Bool) :
    ((e.run inp m).1).weights = e.weights := rfl

/-- Claim C8: the warmup call of the run-harness is semantically
identical to an ordinary measured-round `Run` call — same outputs and
same resulting engine state for every input — differing only in that
it requests no run-metadata and its latency is reported separately. -/
theorem warmup_equiv_C8 {α : Type} (e : Engine α) (inp : Tensor α)
    (benchmark : Bool) :
    (warmupRun e inp).2.1 = (roundRun e inp benchmark).2.1 ∧
    (warmupRun e inp).1 = (roundRun e inp benchmark).1 ∧
    (warmupRun e inp).2.2 = none :=
  ⟨rfl, rfl, rfl⟩

/-- Claim C9: `ParseDataType` is total and never rejects its input: it
returns `IDT_FLOAT16` exactly for `"float16"`, `IDT_BFLOAT16` for
`"bfloat16"`, and `IDT_FLOAT` for every other string, including
`"float32"`, the documented option `"NONE"`, and any unrecognized
string. -/
theorem parseDataType_C9 :
    ParseDataType "float16" = IDataType.IDT_FLOAT16 ∧
    ParseDataType "bfloat16" = IDataType.IDT_BFLOAT16 ∧
    ParseDataType "float32" = IDataType.IDT_FLOAT ∧
    ParseDataType "NONE" = IDataType.IDT_FLOAT ∧
    ∀ s : String, s ≠ "float16" → s ≠ "bfloat16" →
      ParseDataType s = IDataType.IDT_FLOAT := by
  refine ⟨rfl, rfl, rfl, rfl, ?_⟩
  intro s h1 h2
  unfold ParseDataType
  by_cases hf32 : s = "float32"
  · rw [if_pos hf32]
  · rw [if_neg hf32, if_neg h1, if_neg h2]

/-- Witness for claim C9: an unrecognized string is silently treated
as float32. -/
theorem parseDataType_C9_witness :
    ParseDataType "NHWC" = IDataType.IDT_FLOAT :=
  parseDataType_C9.2.2.2.2 "NHWC" (by decide) (by decide)

/-- A predicate false on the comma never lets `takeWhile` cross a
comma appended after the list. -/
theorem takeWhile_append_comma (p : Char → Bool) (hp : p ',' = false)
    (a r : List Char) :
    List.takeWhile p (a ++ ',' :: r) = List.takeWhile p a := by
  induction a with
  | nil => simp [List.takeWhile_cons, hp]
  | cons c cs ih =>
    by_cases h : p c
    · simp [List.takeWhile_cons, h, ih]
    · simp [List.takeWhile_cons, h]

/-- The digit run stops at a comma. -/
theorem digitsVal_append_comma (a r : List Char) :
    digitsVal (a ++ ',' :: r) = digitsVal a := by
  unfold digitsVal
  rw [takeWhile_append_comma cIsDigit rfl]

/-- `atoi` skips a leading whitespace character. -/
theorem atoi_cons_space (c : Char) (l : List Char) (h : cIsSpace c = true) :
    atoi (c :: l) = atoi l := by
  simp only [atoi, List.dropWhile_cons, h, if_true]

/-- `atoi` on a list headed by a non-space character: sign handling
followed by the digit run. -/
theorem atoi_cons_nonspace (c : Char) (l : List Char) (h : cIsSpace c = false) :
    atoi (c :: l) =
      if c = '-' then - digitsVal l
      else if c = '+' then digitsVal l
      else digitsVal (c :: l) := by
  unfold atoi
  rw [List.dropWhile_cons, if_neg (by simp [h])]

/-- `atoi` never reads past a comma: appending a comma and anything
after it leaves the parsed value unchanged. -/
theorem atoi_append_comma (a r : List Char) : atoi (a ++ ',' :: r) = atoi a := by
  induction a with
  | nil =>
    show atoi (',' :: r) = atoi []
    rfl
  | cons c cs ih =>
    rw [List.cons_append]
    by_cases h : cIsSpace c
    · rw [atoi_cons_space c _ h, atoi_cons_space c _ h]
      exact ih
    · rw [atoi_cons_nonspace c _ (by simpa using h),
        atoi_cons_nonspace c _ (by simpa using h)]
      by_cases h1 : c = '-'
      · rw [if_pos h1, if_pos h1, digitsVal_append_comma]
      · rw [if_neg h1, if_neg h1]
        by_cases h2 : c = '+'
        · rw [if_pos h2, if_pos h2, digitsVal_append_comma]
        · rw [if_neg h2, if_neg h2, ← List.cons_append, digitsVal_append_comma]

/-- Splitting on commas always yields at least one segment. -/
theorem splitOnComma_ne_nil (l : List Char) : splitOnComma l ≠ [] := by
  cases l with
  | nil => simp [splitOnComma]
  | cons c cs =>
    by_cases h : c = ','
    · simp [splitOnComma, h]
    · cases hsp : splitOnComma cs <;> simp [splitOnComma, h, hsp]

/-- A comma-free list is a single segment. -/
theorem splitOnComma_of_none (l : List Char) (h : idxOfComma l = none) :
    splitOnComma l = [l] := by
  induction l with
  | nil => simp [splitOnComma]
  | cons c cs ih =>
    have hc : ¬ c = ',' := by
      intro hc
      simp [idxOfComma, hc] at h
    cases hI : idxOfComma cs with
    | some k =>
      exfalso
      simp [idxOfComma, hc, hI] at h
    | none => simp [splitOnComma, hc, ih hI]

/-- Splitting at the first comma: head segment, then the split of the
remainder. -/
theorem splitOnComma_of_some (l : List Char) (k : Nat) (h : idxOfComma l = some k) :
    splitOnComma l = l.take k :: splitOnComma (l.drop (k + 1)) := by
  induction l generalizing k with
  | nil => simp [idxOfComma] at h
  | cons c cs ih =>
    by_cases hc : c = ','
    · have hk : k = 0 := by
        simp [idxOfComma, hc] at h
        omega
      subst hk
      simp [splitOnComma, hc]
    · cases hI : idxOfComma cs with
      | none => simp [idxOfComma, hc, hI] at h
      | some k0 =>
        have hk : k = k0 + 1 := by
          simp [idxOfComma, hc, hI] at h
          omega
        subst hk
        simp [splitOnComma, hc, ih k0 hI, List.take_succ_cons, List.drop_succ_cons]

/-- The first-comma index decomposes the list around that comma. -/
theorem idxOfComma_take_drop (l : List Char) (k : Nat) (h : idxOfComma l = some k) :
    l = l.take k ++ ',' :: l.drop (k + 1) := by
  induction l generalizing k with
  | nil => simp [idxOfComma] at h
  | cons c cs ih =>
    by_cases hc : c = ','
    · have hk : k = 0 := by
        simp [idxOfComma, hc] at h
        omega
      subst hk
      simp [hc]
    · cases hI : idxOfComma cs with
      | none => simp [idxOfComma, hc, hI] at h
      | some k0 =>
        have hk : k = k0 + 1 := by
          simp [idxOfComma, hc, hI] at h
          omega
        subst hk
        simp only [List.take_succ_cons, List.drop_succ_cons, List.cons_append,
          List.cons.injEq, true_and]
        exact ih k0 hI

/-- Removing the trailing empty segment commutes with consing a
segment in front of a non-empty segment list. -/
theorem dropTrailingEmpty_cons (x s : List Char) (ss : List (List Char)) :
    dropTrailingEmpty (x :: s :: ss) = x :: dropTrailingEmpty (s :: ss) := by
  unfold dropTrailingEmpty
  rw [List.getLast?_cons_cons]
  by_cases h : (s :: ss).getLast? = some ([] : List Char)
  · rw [if_pos h, if_pos h]
    rfl
  · rw [if_neg h, if_neg h]

/-- Fuel-indexed form of the `ParseShape` characterization, for
induction on the string length. -/
theorem parseShape_segments_aux :
    ∀ (fuel : Nat) (l : List Char), l.length ≤ fuel →
      ParseShape l = (claimSegments l).map atoi := by
  intro fuel
  induction fuel with
  | zero =>
    intro l hl
    have hnil : l = [] := List.eq_nil_of_length_eq_zero (Nat.le_zero.mp hl)
    subst hnil
    simp [ParseShape, claimSegments, splitOnComma, dropTrailingEmpty]
  | succ n ih =>
    intro l hl
    cases l with
    | nil => simp [ParseShape, claimSegments, splitOnComma, dropTrailingEmpty]
    | cons c cs =>
      cases hI : idxOfComma (c :: cs) with
      | none =>
        have h1 : ParseShape (c :: cs) = [atoi (c :: cs)] := by
          simp [ParseShape, hI]
        rw [h1]
        simp [claimSegments, splitOnComma_of_none _ hI, dropTrailingEmpty]
      | some k =>
        have hlen : ((c :: cs).drop (k + 1)).length ≤ n := by
          simp only [List.length_drop, List.length_cons] at *
          omega
        have h1 : ParseShape (c :: cs) =
            atoi (c :: cs) :: ParseShape ((c :: cs).drop (k + 1)) := by
          simp [ParseShape, hI]
        obtain ⟨s, ss, hss⟩ :
            ∃ s ss, splitOnComma ((c :: cs).drop (k + 1)) = s :: ss := by
          cases hsp : splitOnComma ((c :: cs).drop (k + 1)) with
          | nil => exact absurd hsp (splitOnComma_ne_nil _)
          | cons s ss => exact ⟨s, ss, rfl⟩
        have hhead : atoi (c :: cs) = atoi ((c :: cs).take k) := by
          conv_lhs => rw [idxOfComma_take_drop _ _ hI]
          rw [atoi_append_comma]
        rw [h1, ih _ hlen, hhead]
        unfold claimSegments
        rw [splitOnComma_of_some _ _ hI, hss, dropTrailingEmpty_cons, ← hss]
        simp

/-- Claim C10: for every input string, `ParseShape` appends exactly
the `atoi` value of each comma-separated segment in order, where the
empty string appends nothing and a trailing comma adds no extra
element. -/
theorem parseShape_segments_C10 (l : List Char) :
    ParseShape l = (claimSegments l).map atoi :=
  parseShape_segments_aux l.length l (Nat.le_refl _)

end Mace
